import Mathlib

/-!
Verification of the local explanation engine of `paudan/interpret-text`
(generative-text likelihood attribution).

The repository ships two demonstration notebooks; the explainer
implementation itself (`interpret_text.generative.lime_tools.explainers`,
`LocalExplanationLikelihood` and its partition / perturbation helpers) is
not part of the available sources — only its caller, the notebook
`generative_text_huggingface_roberta.ipynb`, together with the recorded
output of one run.  Definitions below are therefore of two kinds:

* transcriptions of the recorded notebook run (prompt, parts list and
  attribution list as printed in the notebook's output cell), and
* components modelled from the specification (partitioner, perturbation
  generator, attribution estimator, ranker), each marked
  `Modelled from the spec:` in its doc comment.
-/

namespace InterpretText

/-- Modelled from the spec: a `LikelihoodResult` is a scalar log-likelihood
or a per-token log-probability sequence (spec §3).  Log-probabilities are
modelled as exact rationals. -/
inductive LikelihoodResult where
  | scalar (value : ℚ)
  | perToken (logProbs : List ℚ)
deriving DecidableEq

/-- Modelled from the spec: `reduce` sums per-token log-probabilities, or
uses the scalar directly if already scalar (spec §4.4 step 4). -/
def LikelihoodResult.reduce : LikelihoodResult → ℚ
  | .scalar v => v
  | .perToken ps => ps.sum

/-- Modelled from the spec: an `AttributionRecord` is a
(unit_index, score) pair (spec §3). -/
structure AttributionRecord where
  unit_index : Nat
  score : ℚ
deriving DecidableEq

/-- Modelled from the spec: the error taxonomy of spec §7. -/
inductive ExplainError where
  | emptyInputError
  | invalidPartitionError
  | scoringError (cause : String)
  | scoringTimeoutError
  | configurationError
deriving DecidableEq

/-- Modelled from the spec: the likelihood oracle adapter contract
(spec §4.3): `score(prompts, completion)` returns one result per prompt or
fails with a cause. -/
def Oracle : Type :=
  List String → String → Except String (List LikelihoodResult)

/-- Modelled from the spec: partition strategies (spec §4.1). -/
inductive PartitionStrategy where
  | word
  | sentence
deriving DecidableEq

/-- Modelled from the spec: perturbation policies (spec §4.2). -/
inductive PerturbationPolicy where
  | removal
  | maskReplacement (mask : String)
deriving DecidableEq

/-- Modelled from the spec: estimator configuration (spec §6):
partition strategy plus perturbation policy. -/
structure EstimatorConfig where
  strategy : PartitionStrategy
  policy : PerturbationPolicy

/-- Sentence-terminal punctuation (spec §4.1, sentence strategy). -/
def isSentenceTerminal (c : Char) : Bool :=
  c = '.' || c = '!' || c = '?'

/-- Word boundary: a new unit starts where whitespace ends (spec §4.1,
word strategy: splits on whitespace boundaries). -/
def wordBreak (prev c : Char) : Bool :=
  prev.isWhitespace && !c.isWhitespace

/-- Sentence boundary: a new unit starts right after sentence-terminal
punctuation (spec §4.1, sentence strategy). -/
def sentenceBreak (prev _c : Char) : Bool :=
  isSentenceTerminal prev

/-- Splits a character list into maximal chunks, starting a new chunk at
every position where `p prev cur` holds.  `acc` is the current chunk in
reverse.  By construction no character is dropped or duplicated. -/
def chunkGo (p : Char → Char → Bool) (prev : Char) (acc : List Char) :
    List Char → List (List Char)
  | [] => [acc.reverse]
  | c :: cs =>
    if p prev c then acc.reverse :: chunkGo p c [c] cs
    else chunkGo p c (c :: acc) cs

/-- Chunking entry point: empty text yields no chunks. -/
def chunkBy (p : Char → Char → Bool) : List Char → List (List Char)
  | [] => []
  | c :: cs => chunkGo p c [c] cs

/-- Modelled from the spec: the partitioner contract of spec §4.1,
producing the ordered unit texts for the word or sentence strategy. -/
def partitionText (s : PartitionStrategy) (text : String) : List String :=
  match s with
  | .word => (chunkBy wordBreak text.data).map String.mk
  | .sentence => (chunkBy sentenceBreak text.data).map String.mk

/-- Modelled from the spec: a `Unit` of the partition — start offset, end
offset, raw text, index (spec §3).  Named `PromptUnit` because `Unit` is a
Lean builtin. -/
structure PromptUnit where
  start : Nat
  stop : Nat
  text : String
  index : Nat
deriving DecidableEq

/-- Builds the units of a parts list, accumulating character offsets and
index positions. -/
def unitsGo (off idx : Nat) : List String → List PromptUnit
  | [] => []
  | t :: ts => ⟨off, off + t.length, t, idx⟩ :: unitsGo (off + t.length) (idx + 1) ts

/-- The units of a partition, with offsets from 0 and dense indices. -/
def unitsOfParts (parts : List String) : List PromptUnit :=
  unitsGo 0 0 parts

/-- Concatenation of unit texts in index order. -/
def concatTexts (parts : List String) : String :=
  parts.foldr (· ++ ·) ""

/-- Modelled from the spec: the removal perturbation — the perturbed
prompt is the original text with the given unit's span excised, adjacent
units' text concatenated (spec §4.2). -/
def removeUnit (parts : List String) (i : Nat) : String :=
  concatTexts (parts.eraseIdx i)

/-- Modelled from the spec: the mask-replacement perturbation — the unit's
span is replaced by a fixed mask string (spec §4.2). -/
def maskUnit (parts : List String) (mask : String) (i : Nat) : String :=
  concatTexts (parts.set i mask)

/-- The perturbed prompt for unit `i` under a policy. -/
def perturbedPrompt (policy : PerturbationPolicy) (parts : List String)
    (i : Nat) : String :=
  match policy with
  | .removal => removeUnit parts i
  | .maskReplacement mask => maskUnit parts mask i

/-- Modelled from the spec: the perturbation generator contract of
spec §4.2 — one perturbed prompt per unit, in the partition's index
order. -/
def perturbations (policy : PerturbationPolicy) (parts : List String) :
    List String :=
  (List.range parts.length).map (perturbedPrompt policy parts)

/-- The per-unit scores of spec §4.4 step 4:
`score_i = reduce(results[0]) - reduce(results[i+1])`, emitted in unit
index order (step 5). -/
def scoreRecords (parts : List String) (results : List LikelihoodResult) :
    List AttributionRecord :=
  (List.range parts.length).map fun i =>
    ⟨i, (results.headD (.scalar 0)).reduce -
        (results.getD (i + 1) (.scalar 0)).reduce⟩

/-- Modelled from the spec: the attribution estimator of spec §4.4
(`LocalExplanationLikelihood.attribution`; the implementation in
`interpret_text/generative/lime_tools/explainers.py` is not among the
available sources).  The second component of the result is the list of
oracle invocations made (each one a batch of prompts), so that the
single-batched-call and no-call-on-error properties are visible. -/
def attribution (oracle : Oracle) (prompt completion : String)
    (cfg : EstimatorConfig) :
    Except ExplainError (List AttributionRecord × List String) ×
      List (List String) :=
  if prompt = "" then (.error .emptyInputError, [])
  else if partitionText cfg.strategy prompt = [] then
    (.error .emptyInputError, [])
  else
    match oracle
        (prompt :: perturbations cfg.policy (partitionText cfg.strategy prompt))
        completion with
    | .error cause =>
      (.error (.scoringError cause),
        [prompt :: perturbations cfg.policy (partitionText cfg.strategy prompt)])
    | .ok results =>
      if results.length = (partitionText cfg.strategy prompt).length + 1 then
        (.ok (scoreRecords (partitionText cfg.strategy prompt) results,
            partitionText cfg.strategy prompt),
          [prompt :: perturbations cfg.policy (partitionText cfg.strategy prompt)])
      else
        (.error (.scoringError "oracle result count mismatch"),
          [prompt :: perturbations cfg.policy (partitionText cfg.strategy prompt)])

/-- Modelled from the spec: the sort keys of the result ranker
(spec §4.5). -/
inductive RankBy where
  | score_desc
  | score_asc
  | magnitude_desc
deriving DecidableEq

/-- The ranker's ordering: the selected key first, ties broken by
ascending unit index (spec §4.5). -/
def keyLE (ord : RankBy) (a b : AttributionRecord) : Bool :=
  match ord with
  | .score_desc =>
    if b.score < a.score then true
    else if a.score = b.score then decide (a.unit_index ≤ b.unit_index)
    else false
  | .score_asc =>
    if a.score < b.score then true
    else if a.score = b.score then decide (a.unit_index ≤ b.unit_index)
    else false
  | .magnitude_desc =>
    if |b.score| < |a.score| then true
    else if |a.score| = |b.score| then decide (a.unit_index ≤ b.unit_index)
    else false

/-- Ordered insertion into an already ranked list. -/
def rankInsert (ord : RankBy) (a : AttributionRecord) :
    List AttributionRecord → List AttributionRecord
  | [] => [a]
  | b :: l => if keyLE ord a b then a :: b :: l else b :: rankInsert ord a l

/-- Modelled from the spec: the result ranker of spec §4.5 — a pure,
stable insertion sort over attribution records. -/
def rank (records : List AttributionRecord) (ord : RankBy) :
    List AttributionRecord :=
  records.foldr (rankInsert ord) []

/-! ### Recorded notebook run

Transcribed from the output cell of
`src/notebooks/generative_text/explanation_likelihood/generative_text_huggingface_roberta.ipynb`:
the prompt (`dummy_text`), the parts list and the attribution list printed
by the recorded run of `explainer.attribution(model_wrapped, prompt,
completion)` with `LocalExplanationLikelihood(perturbation_model="removal",
partition_fn="sentences")`. -/

/-- The `(feat_idx, score)` pairs printed by the recorded notebook run. -/
def recordedAttribution : List (Nat × ℚ) :=
  [(7, 7.477217228961401), (6, -4.425517875637719), (1, 0.5402174190392215)]

/-- The parts list printed by the recorded notebook run. -/
def recordedParts : List String :=
  [ "Answer the question given the context.\n"
  , "context: Architecturally, the school has a Catholic character."
  , "Atop the Main Building's gold dome is a golden statue of the Virgin Mary."
  , "Immediately in front of the Main Building and facing it, is a copper statue of Christ with arms upraised with the legend \"Venite Ad Me Omnes\"."
  , "Next to the Main Building is the Basilica of the Sacred Heart."
  , "Immediately behind the basilica is the Grotto, a Marian place of prayer and reflection."
  , "It is a replica of the grotto at Lourdes, France where the Virgin Mary reputedly appeared to Saint Bernadette Soubirous in 1858."
  , "At the end of the main drive (and in a direct line that connects through 3 statues and the Gold Dome), is a simple, modern stone statue of Mary.\nquestion: To whom did the Virgin Mary allegedly appear in 1858 in Lourdes France?" ]

/-! ### Partitioner lemmas -/

theorem chunkGo_flatten (p : Char → Char → Bool) :
    ∀ (cs : List Char) (prev : Char) (acc : List Char),
      (chunkGo p prev acc cs).flatten = acc.reverse ++ cs := by
  intro cs
  induction cs with
  | nil => intro prev acc; simp [chunkGo]
  | cons c cs ih =>
    intro prev acc
    by_cases h : p prev c = true
    · simp [chunkGo, h, ih]
    · simp only [Bool.not_eq_true] at h
      simp [chunkGo, h, ih]

theorem chunkBy_flatten (p : Char → Char → Bool) (cs : List Char) :
    (chunkBy p cs).flatten = cs := by
  cases cs with
  | nil => rfl
  | cons c cs => simp [chunkBy, chunkGo_flatten]

theorem chunkGo_ne_nil (p : Char → Char → Bool) :
    ∀ (cs : List Char) (prev : Char) (acc : List Char),
      chunkGo p prev acc cs ≠ [] := by
  intro cs
  induction cs with
  | nil => intro prev acc; simp [chunkGo]
  | cons c cs ih =>
    intro prev acc
    by_cases h : p prev c = true
    · simp [chunkGo, h]
    · simp only [Bool.not_eq_true] at h
      simp only [chunkGo, h]
      simp [ih]

theorem string_mk_append (a b : List Char) :
    String.mk a ++ String.mk b = String.mk (a ++ b) :=
  rfl

theorem concatTexts_map_mk (css : List (List Char)) :
    concatTexts (css.map String.mk) = String.mk css.flatten := by
  induction css with
  | nil => rfl
  | cons cs css ih =>
    simp only [List.map_cons, concatTexts, List.foldr_cons, List.flatten]
    rw [show List.foldr (· ++ ·) "" (css.map String.mk) =
          concatTexts (css.map String.mk) from rfl, ih]
    rfl

theorem partitionText_concat (s : PartitionStrategy) (text : String) :
    concatTexts (partitionText s text) = text := by
  cases s <;>
    simp only [partitionText, concatTexts_map_mk, chunkBy_flatten]

theorem partitionText_ne_nil (s : PartitionStrategy) (text : String)
    (h : text ≠ "") : partitionText s text ≠ [] := by
  have hd : text.data ≠ [] := by
    intro hdata
    apply h
    cases text with
    | mk l => cases hdata; rfl
  cases s <;>
    · simp only [partitionText, ne_eq, List.map_eq_nil_iff]
      cases hlist : text.data with
      | nil => exact absurd hlist hd
      | cons c cs => simp [chunkBy, chunkGo_ne_nil]

/-! ### Unit lemmas -/

theorem unitsGo_map_index :
    ∀ (ts : List String) (off idx : Nat),
      (unitsGo off idx ts).map PromptUnit.index = List.range' idx ts.length := by
  intro ts
  induction ts with
  | nil => intro off idx; rfl
  | cons t ts ih =>
    intro off idx
    simp [unitsGo, List.range', ih]

theorem unitsGo_head_start (ts : List String) (off idx : Nat) :
    ∀ u ∈ (unitsGo off idx ts).head?, u.start = off := by
  cases ts with
  | nil => simp [unitsGo]
  | cons t ts => simp [unitsGo]

theorem unitsGo_chain :
    ∀ (ts : List String) (off idx : Nat),
      List.Chain' (fun u v => u.stop = v.start) (unitsGo off idx ts) := by
  intro ts
  induction ts with
  | nil => intro off idx; simp [unitsGo]
  | cons t ts ih =>
    intro off idx
    rw [unitsGo, List.chain'_cons']
    refine ⟨?_, ih _ _⟩
    intro v hv
    rw [unitsGo_head_start ts (off + t.length) (idx + 1) v hv]

theorem unitsGo_stop :
    ∀ (ts : List String) (off idx : Nat),
      ∀ u ∈ unitsGo off idx ts, u.stop = u.start + u.text.length := by
  intro ts
  induction ts with
  | nil => intro off idx; simp [unitsGo]
  | cons t ts ih =>
    intro off idx u hu
    simp only [unitsGo, List.mem_cons] at hu
    rcases hu with hu | hu
    · subst hu; rfl
    · exact ih _ _ u hu

theorem unitsGo_map_text :
    ∀ (ts : List String) (off idx : Nat),
      (unitsGo off idx ts).map PromptUnit.text = ts := by
  intro ts
  induction ts with
  | nil => intro off idx; rfl
  | cons t ts ih =>
    intro off idx
    simp [unitsGo, ih]

theorem unitsGo_length (ts : List String) (off idx : Nat) :
    (unitsGo off idx ts).length = ts.length := by
  have h := congrArg List.length (unitsGo_map_text ts off idx)
  simpa using h

/-! ### Claim theorems -/

/-- C5: for every partition produced by the word or sentence strategy on
any prompt, the units are non-overlapping (consecutive units abut: each
unit ends exactly where the next starts, and each unit's span has the
length of its text), their indices form a dense `0..N-1` range, and the
concatenation of the unit texts in index order equals the original prompt
exactly. -/
theorem partition_units_reconstruct (s : PartitionStrategy) (prompt : String) :
    concatTexts (partitionText s prompt) = prompt ∧
    (unitsOfParts (partitionText s prompt)).map PromptUnit.text =
      partitionText s prompt ∧
    (unitsOfParts (partitionText s prompt)).map PromptUnit.index =
      List.range (unitsOfParts (partitionText s prompt)).length ∧
    List.Chain' (fun u v => u.stop = v.start)
      (unitsOfParts (partitionText s prompt)) ∧
    ∀ u ∈ unitsOfParts (partitionText s prompt),
      u.stop = u.start + u.text.length := by
  refine ⟨partitionText_concat s prompt, unitsGo_map_text _ 0 0, ?_, ?_, ?_⟩
  · rw [unitsOfParts, unitsGo_map_index, unitsGo_length, List.range_eq_range']
  · exact unitsGo_chain _ 0 0
  · exact unitsGo_stop _ 0 0

/-- Witness: the C5 invariants evaluated on the sentence partition of the
concrete prompt of spec §8 Scenario A. -/
theorem partition_units_reconstruct_witness :
    concatTexts (partitionText .sentence "A. B. C.") = "A. B. C." ∧
    (unitsOfParts (partitionText .sentence "A. B. C.")).map PromptUnit.text =
      partitionText .sentence "A. B. C." ∧
    (unitsOfParts (partitionText .sentence "A. B. C.")).map PromptUnit.index =
      List.range (unitsOfParts (partitionText .sentence "A. B. C.")).length ∧
    List.Chain' (fun u v => u.stop = v.start)
      (unitsOfParts (partitionText .sentence "A. B. C.")) ∧
    ∀ u ∈ unitsOfParts (partitionText .sentence "A. B. C."),
      u.stop = u.start + u.text.length :=
  partition_units_reconstruct .sentence "A. B. C."

/-- C6: for the empty prompt, attribution fails with `EmptyInputError` and
the list of oracle invocations is empty — no oracle call is made. -/
theorem attribution_empty_prompt (oracle : Oracle) (completion : String)
    (cfg : EstimatorConfig) :
    attribution oracle "" completion cfg =
      (.error .emptyInputError, []) := by
  unfold attribution
  simp

theorem perturbations_length (policy : PerturbationPolicy)
    (parts : List String) :
    (perturbations policy parts).length = parts.length := by
  simp [perturbations]

theorem perturbations_getD (policy : PerturbationPolicy)
    (parts : List String) (i : Nat) (h : i < parts.length) :
    (perturbations policy parts).getD i "" = perturbedPrompt policy parts i := by
  unfold perturbations
  rw [List.getD_eq_getElem?_getD, List.getElem?_map, List.getElem?_range h]
  rfl

theorem scoreRecords_length (parts : List String)
    (results : List LikelihoodResult) :
    (scoreRecords parts results).length = parts.length := by
  simp [scoreRecords]

theorem scoreRecords_getD (parts : List String)
    (results : List LikelihoodResult) (i : Nat) (h : i < parts.length) :
    (scoreRecords parts results).getD i ⟨0, 0⟩ =
      ⟨i, (results.headD (.scalar 0)).reduce -
          (results.getD (i + 1) (.scalar 0)).reduce⟩ := by
  unfold scoreRecords
  rw [List.getD_eq_getElem?_getD, List.getElem?_map, List.getElem?_range h]
  rfl

/-- C4: every attribution call on a non-empty prompt makes exactly one
oracle invocation, whose batch has `N + 1` prompts: index 0 is the
original prompt and index `i + 1` is the perturbation of unit `i`, for
every unit of the partition. -/
theorem attribution_single_batched_call (oracle : Oracle)
    (prompt completion : String) (cfg : EstimatorConfig)
    (h : prompt ≠ "") :
    (attribution oracle prompt completion cfg).snd =
      [prompt :: perturbations cfg.policy (partitionText cfg.strategy prompt)] ∧
    (prompt ::
        perturbations cfg.policy (partitionText cfg.strategy prompt)).length =
      (partitionText cfg.strategy prompt).length + 1 ∧
    (prompt ::
        perturbations cfg.policy (partitionText cfg.strategy prompt)).getD 0 "" =
      prompt ∧
    ∀ i < (partitionText cfg.strategy prompt).length,
      (prompt ::
          perturbations cfg.policy
            (partitionText cfg.strategy prompt)).getD (i + 1) "" =
        perturbedPrompt cfg.policy (partitionText cfg.strategy prompt) i := by
  refine ⟨?_, ?_, rfl, ?_⟩
  · unfold attribution
    rw [if_neg h, if_neg (partitionText_ne_nil cfg.strategy prompt h)]
    split
    · rfl
    · split <;> rfl
  · simp [perturbations_length]
  · intro i hi
    simpa using perturbations_getD cfg.policy _ i hi

/-- C1: whenever attribution succeeds, there is exactly one oracle answer
for the batch `original :: perturbed`, of length `N + 1`, and the record
for unit `i` carries the score
`reduce(results[0]) - reduce(results[i+1])` — the reduced baseline
likelihood minus the reduced likelihood of that unit's perturbed prompt —
with the records in unit index order. -/
theorem attribution_score_is_likelihood_delta (oracle : Oracle)
    (prompt completion : String) (cfg : EstimatorConfig)
    (records : List AttributionRecord) (parts : List String)
    (hres : (attribution oracle prompt completion cfg).fst =
      .ok (records, parts)) :
    ∃ results : List LikelihoodResult,
      oracle (prompt :: perturbations cfg.policy parts) completion =
        .ok results ∧
      results.length = parts.length + 1 ∧
      records.length = parts.length ∧
      ∀ i < parts.length,
        records.getD i ⟨0, 0⟩ =
          ⟨i, (results.headD (.scalar 0)).reduce -
              (results.getD (i + 1) (.scalar 0)).reduce⟩ := by
  unfold attribution at hres
  split at hres
  · simp at hres
  split at hres
  · simp at hres
  split at hres
  · simp at hres
  rename_i results hor
  split at hres
  · rename_i hlen
    simp only [Except.ok.injEq, Prod.mk.injEq] at hres
    obtain ⟨hrec, hpart⟩ := hres
    subst hpart
    refine ⟨results, hor, hlen, ?_, ?_⟩
    · rw [← hrec, scoreRecords_length]
    · intro i hi
      rw [← hrec]
      exact scoreRecords_getD _ results i hi
  · simp at hres

/-- C7: if the oracle adapter fails during an attribution call, the call
fails with a `ScoringError` wrapping the underlying cause and returns no
attribution records at all. -/
theorem attribution_wraps_oracle_failure (oracle : Oracle)
    (prompt completion : String) (cfg : EstimatorConfig) (cause : String)
    (h : prompt ≠ "")
    (hor : oracle
        (prompt :: perturbations cfg.policy (partitionText cfg.strategy prompt))
        completion = .error cause) :
    attribution oracle prompt completion cfg =
      (.error (.scoringError cause),
        [prompt ::
          perturbations cfg.policy (partitionText cfg.strategy prompt)]) := by
  unfold attribution
  rw [if_neg h, if_neg (partitionText_ne_nil cfg.strategy prompt h), hor]

/-- C9: attribution depends on the oracle only through its input-output
behaviour — with a deterministic oracle, calls with identical prompt,
completion and configuration produce identical record sequences (same
order, same scores). -/
theorem attribution_deterministic (o1 o2 : Oracle)
    (prompt completion : String) (cfg : EstimatorConfig)
    (h : ∀ ps c, o1 ps c = o2 ps c) :
    attribution o1 prompt completion cfg =
      attribution o2 prompt completion cfg := by
  unfold attribution
  rw [h]

/-! ### Concrete witness data (spec §8 Scenario A) -/

/-- Sentence strategy with removal perturbation, the notebook's
configuration. -/
def cfgSentenceRemoval : EstimatorConfig := ⟨.sentence, .removal⟩

/-- A deterministic oracle returning baseline likelihood `L0 = 10` and
per-perturbation likelihoods `L1 = 3`, `L2 = 5`, `L3 = 7`. -/
def oracleA : Oracle := fun _ _ =>
  .ok [.scalar 10, .scalar 3, .scalar 5, .scalar 7]

/-- The sentence partition of the Scenario A prompt. -/
def partsA : List String := partitionText .sentence "A. B. C."

/-- The records computed from `oracleA`'s likelihoods on `partsA`. -/
def recordsA : List AttributionRecord :=
  scoreRecords partsA [.scalar 10, .scalar 3, .scalar 5, .scalar 7]

/-- An oracle that always fails with a resource error. -/
def oracleFail : Oracle := fun _ _ => .error "out of memory"

/-- A deterministic oracle scoring every prompt with log-likelihood 1. -/
def oracleB1 : Oracle := fun ps _ => .ok (ps.map fun _ => .scalar 1)

/-- Another presentation of the same deterministic oracle behaviour. -/
def oracleB2 : Oracle := fun ps _ => .ok (ps.map fun _ => .scalar (2 - 1))

/-- Witness: C1 applied to the Scenario A prompt `"A. B. C."` with the
oracle answers `[10, 3, 5, 7]`; the three emitted scores are
`[10 - 3, 10 - 5, 10 - 7]`, i.e. `[L0 - L1, L0 - L2, L0 - L3]`, in unit
order. -/
theorem attribution_score_is_likelihood_delta_witness :
    (∃ results : List LikelihoodResult,
      oracleA ("A. B. C." :: perturbations .removal partsA) "x" =
        .ok results ∧
      results.length = partsA.length + 1 ∧
      recordsA.length = partsA.length ∧
      ∀ i < partsA.length,
        recordsA.getD i ⟨0, 0⟩ =
          ⟨i, (results.headD (.scalar 0)).reduce -
              (results.getD (i + 1) (.scalar 0)).reduce⟩) ∧
    partsA = ["A.", " B.", " C."] ∧
    recordsA = [⟨0, 10 - 3⟩, ⟨1, 10 - 5⟩, ⟨2, 10 - 7⟩] :=
  ⟨attribution_score_is_likelihood_delta oracleA "A. B. C." "x"
      cfgSentenceRemoval recordsA partsA rfl,
    rfl, rfl⟩

/-- Witness: C4 applied to the Scenario A prompt: the oracle is invoked
exactly once on a 4-prompt batch whose head is the unperturbed prompt. -/
theorem attribution_single_batched_call_witness :
    (attribution oracleA "A. B. C." "x" cfgSentenceRemoval).snd =
      ["A. B. C." ::
        perturbations cfgSentenceRemoval.policy
          (partitionText cfgSentenceRemoval.strategy "A. B. C.")] ∧
    ("A. B. C." ::
        perturbations cfgSentenceRemoval.policy
          (partitionText cfgSentenceRemoval.strategy "A. B. C.")).length =
      (partitionText cfgSentenceRemoval.strategy "A. B. C.").length + 1 ∧
    ("A. B. C." ::
        perturbations cfgSentenceRemoval.policy
          (partitionText cfgSentenceRemoval.strategy "A. B. C.")).getD 0 "" =
      "A. B. C." ∧
    ∀ i < (partitionText cfgSentenceRemoval.strategy "A. B. C.").length,
      ("A. B. C." ::
          perturbations cfgSentenceRemoval.policy
            (partitionText cfgSentenceRemoval.strategy "A. B. C.")).getD
          (i + 1) "" =
        perturbedPrompt cfgSentenceRemoval.policy
          (partitionText cfgSentenceRemoval.strategy "A. B. C.") i :=
  attribution_single_batched_call oracleA "A. B. C." "x" cfgSentenceRemoval
    (by decide)

/-- Witness: C7 applied to the Scenario A prompt with an oracle that
raises an out-of-memory failure: the call yields a `ScoringError` wrapping
the cause and no records. -/
theorem attribution_wraps_oracle_failure_witness :
    attribution oracleFail "A. B. C." "x" cfgSentenceRemoval =
      (.error (.scoringError "out of memory"),
        ["A. B. C." ::
          perturbations cfgSentenceRemoval.policy
            (partitionText cfgSentenceRemoval.strategy "A. B. C.")]) :=
  attribution_wraps_oracle_failure oracleFail "A. B. C." "x"
    cfgSentenceRemoval "out of memory" (by decide) rfl

/-- Witness: C9 applied to two syntactically different oracles with the
same input-output behaviour: the attribution results coincide. -/
theorem attribution_deterministic_witness :
    attribution oracleB1 "A. B. C." "x" cfgSentenceRemoval =
      attribution oracleB2 "A. B. C." "x" cfgSentenceRemoval :=
  attribution_deterministic oracleB1 oracleB2 "A. B. C." "x"
    cfgSentenceRemoval
    (fun ps c => by
      simp [oracleB1, oracleB2, show (2 - 1 : ℚ) = 1 by norm_num])

/-! ### Ranker lemmas -/

theorem keyLE_total (ord : RankBy) (a b : AttributionRecord) :
    keyLE ord a b = true ∨ keyLE ord b a = true := by
  cases ord
  case score_desc =>
    rcases lt_trichotomy a.score b.score with h | h | h
    · right; simp [keyLE, h]
    · rcases Nat.le_total a.unit_index b.unit_index with hn | hn
      · left; simp [keyLE, h, hn]
      · right; simp [keyLE, h.symm, hn]
    · left; simp [keyLE, h]
  case score_asc =>
    rcases lt_trichotomy a.score b.score with h | h | h
    · left; simp [keyLE, h]
    · rcases Nat.le_total a.unit_index b.unit_index with hn | hn
      · left; simp [keyLE, h, hn]
      · right; simp [keyLE, h.symm, hn]
    · right; simp [keyLE, h]
  case magnitude_desc =>
    rcases lt_trichotomy |a.score| |b.score| with h | h | h
    · right; simp [keyLE, h]
    · rcases Nat.le_total a.unit_index b.unit_index with hn | hn
      · left; simp [keyLE, h, hn]
      · right; simp [keyLE, h.symm, hn]
    · left; simp [keyLE, h]

theorem keyLE_tie (ord : RankBy) (a b : AttributionRecord)
    (h : keyLE ord a b = true) (hs : a.score = b.score) :
    a.unit_index ≤ b.unit_index := by
  cases ord <;> simp [keyLE, hs] at h <;> exact h

theorem rankInsert_perm (ord : RankBy) (a : AttributionRecord) :
    ∀ l : List AttributionRecord, (rankInsert ord a l).Perm (a :: l) := by
  intro l
  induction l with
  | nil => exact List.Perm.refl _
  | cons b l ih =>
    rw [rankInsert]
    by_cases h : keyLE ord a b = true
    · rw [if_pos h]
    · rw [if_neg h]
      exact (ih.cons b).trans (List.Perm.swap a b l)

theorem rank_perm (ord : RankBy) (records : List AttributionRecord) :
    (rank records ord).Perm records := by
  induction records with
  | nil => exact List.Perm.refl _
  | cons r rs ih =>
    have : rank (r :: rs) ord = rankInsert ord r (rank rs ord) := rfl
    rw [this]
    exact (rankInsert_perm ord r (rank rs ord)).trans (ih.cons r)

theorem rankInsert_chain (ord : RankBy) (a : AttributionRecord) :
    ∀ l : List AttributionRecord,
      List.Chain' (fun x y => keyLE ord x y = true) l →
      List.Chain' (fun x y => keyLE ord x y = true) (rankInsert ord a l) := by
  intro l
  induction l with
  | nil => intro _; simp [rankInsert]
  | cons b l ih =>
    intro hl
    have hl' := List.chain'_cons'.mp hl
    rw [rankInsert]
    by_cases h : keyLE ord a b = true
    · rw [if_pos h]
      exact List.chain'_cons.mpr ⟨h, hl⟩
    · have hba : keyLE ord b a = true := by
        rcases keyLE_total ord a b with h' | h'
        · exact absurd h' h
        · exact h'
      rw [if_neg h]
      apply List.chain'_cons'.mpr
      refine ⟨?_, ih hl'.2⟩
      intro c hc
      cases l with
      | nil => simp [rankInsert] at hc; subst hc; exact hba
      | cons d l' =>
        rw [rankInsert] at hc
        by_cases had : keyLE ord a d = true
        · rw [if_pos had] at hc
          simp at hc; subst hc; exact hba
        · rw [if_neg had] at hc
          simp at hc; subst hc
          exact hl'.1 d rfl

theorem rank_chain (ord : RankBy) (records : List AttributionRecord) :
    List.Chain' (fun x y => keyLE ord x y = true) (rank records ord) := by
  induction records with
  | nil => simp [rank]
  | cons r rs ih => exact rankInsert_chain ord r (rank rs ord) ih

/-- C8: `rank` is a pure sort — its output is a permutation of its input
(which, records being immutable values, is not mutated), ordered by the
chosen key with ties broken by ascending unit index; on the records
`[(0, 0.5), (1, 7.48), (2, -4.43)]` with `score_desc` it returns
`[(1, 7.48), (0, 0.5), (2, -4.43)]`. -/
theorem rank_pure_stable_sort :
    (∀ (ord : RankBy) (records : List AttributionRecord),
      (rank records ord).Perm records ∧
      List.Chain' (fun x y => keyLE ord x y = true) (rank records ord) ∧
      List.Chain' (fun x y => x.score = y.score → x.unit_index ≤ y.unit_index)
        (rank records ord)) ∧
    rank [⟨0, 0.5⟩, ⟨1, 7.48⟩, ⟨2, -4.43⟩] .score_desc =
      [⟨1, 7.48⟩, ⟨0, 0.5⟩, ⟨2, -4.43⟩] := by
  constructor
  · intro ord records
    refine ⟨rank_perm ord records, rank_chain ord records, ?_⟩
    exact (rank_chain ord records).imp
      (fun x y h hs => keyLE_tie ord x y h hs)
  · norm_num [rank, rankInsert, keyLE]

/-! ### Theorems about the recorded notebook run -/

/-- C10: the recorded run of `LocalExplanationLikelihood.attribution`
returned exactly the three pairs
`[(7, 7.477217228961401), (6, -4.425517875637719), (1, 0.5402174190392215)]`,
sorted by strictly descending absolute score, fewer pairs (3) than the
partition has parts (8), and every returned index refers to a valid
part. -/
theorem recorded_attribution_topk_by_magnitude :
    recordedAttribution =
      [(7, 7.477217228961401), (6, -4.425517875637719),
        (1, 0.5402174190392215)] ∧
    recordedAttribution.length = 3 ∧
    recordedParts.length = 8 ∧
    recordedAttribution.length < recordedParts.length ∧
    List.Chain' (fun a b => |b.2| < |a.2|) recordedAttribution ∧
    ∀ p ∈ recordedAttribution, p.1 < recordedParts.length := by
  refine ⟨rfl, rfl, rfl,
    by norm_num [recordedAttribution, recordedParts], ?_, ?_⟩
  · simp only [recordedAttribution, List.chain'_cons, List.chain'_singleton,
      and_true]
    constructor
    · rw [abs_of_nonpos (by norm_num), abs_of_nonneg (by norm_num)]
      norm_num
    · rw [abs_of_nonneg (by norm_num), abs_of_nonpos (by norm_num)]
      norm_num
  · intro p hp
    simp only [recordedAttribution, List.mem_cons, List.not_mem_nil,
      or_false] at hp
    rcases hp with hp | hp | hp <;> subst hp <;> norm_num [recordedParts]

/-- Counterexample to C2: the recorded attribution call returned 3 records
for a partition of 8 parts, so the length of the record sequence does not
equal the length of the partition. -/
theorem recorded_record_count_mismatch :
    recordedAttribution.length ≠ recordedParts.length := by
  norm_num [recordedAttribution, recordedParts]

/-- C2 as amended: the recorded attribution call returned at most one
record per part — a top-k subset: no more records than parts, each record
naming a valid part index, and no part attributed twice. -/
theorem recorded_record_count_topk :
    recordedAttribution.length ≤ recordedParts.length ∧
    (∀ p ∈ recordedAttribution, p.1 < recordedParts.length) ∧
    (recordedAttribution.map Prod.fst).Nodup := by
  refine ⟨by norm_num [recordedAttribution, recordedParts], ?_, ?_⟩
  · intro p hp
    simp only [recordedAttribution, List.mem_cons, List.not_mem_nil,
      or_false] at hp
    rcases hp with hp | hp | hp <;> subst hp <;> norm_num [recordedParts]
  · simp [recordedAttribution]

/-- Counterexample to C3: in the recorded run the k-th returned record
does not carry unit index k — the first record names unit 7, not unit
0. -/
theorem recorded_not_in_unit_index_order :
    ¬ ∀ k < recordedAttribution.length,
        (recordedAttribution.getD k (0, 0)).1 = k := by
  intro h
  have h0 := h 0 (by norm_num [recordedAttribution])
  simp [recordedAttribution] at h0

/-- C3 as amended: the records returned by the recorded attribution call
are emitted sorted by strictly descending absolute score, not in unit
index order. -/
theorem recorded_emitted_by_descending_magnitude :
    List.Chain' (fun a b => |b.2| < |a.2|) recordedAttribution ∧
    (recordedAttribution.getD 0 (0, 0)).1 = 7 := by
  constructor
  · simp only [recordedAttribution, List.chain'_cons, List.chain'_singleton,
      and_true]
    constructor
    · rw [abs_of_nonpos (by norm_num), abs_of_nonneg (by norm_num)]
      norm_num
    · rw [abs_of_nonneg (by norm_num), abs_of_nonpos (by norm_num)]
      norm_num
  · rfl

end InterpretText
